import Mathlib

/-!
Verification of the rox scripting-language front end (lexer, recursive-descent
parser, tree-walking interpreter) against its natural-language specification.

The definitions below are a shallow embedding of the Rust sources:
`src/token.rs`, `src/lexer.rs`, `src/ast.rs`, `src/parser.rs`,
`src/environment.rs`, `src/value.rs`, `src/interpreter.rs`.

Modelling conventions:
* Rust `f64` literals are modelled as `ℚ`. No property proved here depends on
  floating-point rounding, NaN or infinities.
* `usize` cursors are modelled as `Nat`. Source positions are stored as `u32`
  in Rust; they fit `u32` for every input shorter than `2^32` characters, and
  the single spot where `u32` arithmetic can underflow (the `Eof` span
  computation `self.cursor as u32 - 1` at cursor `0`, which panics under
  debug assertions and wraps to `4294967295` in release builds) is modelled
  explicitly by an `Option` result of `tokenizeWithContext`.
* `HashMap<String, Option<Value>>` scopes are modelled as association lists
  with insert-replaces-existing-key semantics; the observable map behaviour
  (contains / get / insert) is identical.
* Rust's Unicode `char::is_whitespace` / `char::is_alphabetic` are modelled
  by Lean's `Char.isWhitespace` / `Char.isAlpha`; no claim depends on the
  exact character classes beyond ASCII.
* `Result<T, E>` is `Except E T`; `Result<Expr, ()>` is `Except Unit Expr`.
-/

namespace Rox

/-- Token kinds, from `src/token.rs` (`enum Token`). -/
inductive Token where
  | LeftParen | RightParen | LeftBracket | RightBracket | LeftBrace | RightBrace
  | Comma | Dot | Minus | Plus | Semicolon | Slash | Star
  | Not | NotEqual | Equal | EqualEqual | Greater | GreaterEqual | Less | LessEqual
  | Identifier | String | Number
  | And | Else | False | For | Fun | If | In | Nil | Or | Print | Return | True | Let
  | Error | Eof
deriving DecidableEq, Repr

/-- `WithSpan<Token>` from `src/token.rs`: a token with its start/end source
positions (inclusive offsets into the character buffer). -/
structure Spanned where
  value : Token
  startPos : Nat
  endPos : Nat
deriving DecidableEq, Repr

/-- Rust `char::is_whitespace` (Unicode White_Space), used by
`Lexer::skip_whitespace`. -/
def charIsWhitespace (c : Char) : Bool := c.isWhitespace

/-- Rust `char::is_alphabetic` (Unicode Alphabetic), used by
`Lexer::identifier`'s `consume_while`. -/
def charIsAlphabetic (c : Char) : Bool := c.isAlpha

/-- `Lexer::consume_while`: starting at `cursor`, consume the maximal run of
characters satisfying `p`; returns the consumed characters and the new
cursor (the Rust method returns the characters and advances `self.cursor`). -/
def consumeWhile (p : Char → Bool) (src : List Char) (cursor : Nat) :
    List Char × Nat :=
  let consumed := (src.drop cursor).takeWhile p
  (consumed, cursor + consumed.length)

/-- `Lexer::consume_if`: consume one character if it equals `ch`. -/
def consumeIf (ch : Char) (src : List Char) (cursor : Nat) : Bool × Nat :=
  if src.get? cursor = some ch then (true, cursor + 1) else (false, cursor)

/-- `Lexer::if_match`: one-character lookahead merging two-character
operators; returns the chosen token and the new cursor. -/
def ifMatch (ch : Char) (then_ else_ : Token) (src : List Char) (cursor : Nat) :
    Token × Nat :=
  if src.get? cursor = some ch then (then_, cursor + 1) else (else_, cursor)

/-- `Lexer::skip_whitespace`. -/
def skipWhitespace (src : List Char) (cursor : Nat) : Nat :=
  (consumeWhile charIsWhitespace src cursor).2

/-- `Lexer::check_comment`: the next two characters are `//`. -/
def checkComment (src : List Char) (cursor : Nat) : Bool :=
  src.get? cursor == some '/' && src.get? (cursor + 1) == some '/'

/-- `Lexer::skip_comment`: skip one `//` line comment (through the end of the
line) and the whitespace after it. -/
def skipComment (src : List Char) (cursor : Nat) : Nat :=
  if checkComment src cursor then
    skipWhitespace src (consumeWhile (fun c => c != '\n') src cursor).2
  else cursor

/-- `Lexer::number`: the first digit was already consumed by `next()`;
consume the remaining digits, then optionally a `.` and more digits. -/
def lexNumber (src : List Char) (cursor : Nat) : Token × Nat :=
  let c1 := (consumeWhile (fun c => '0' ≤ c && c ≤ '9') src cursor).2
  let r2 := consumeIf '.' src c1
  let c3 := if r2.1 then (consumeWhile (fun c => '0' ≤ c && c ≤ '9') src r2.2).2 else r2.2
  (Token.Number, c3)

/-- `Lexer::string`: the opening `"` was already consumed; consume until the
closing `"` (or the end of input — an unterminated string still yields the
`String` token; the Rust code only prints a warning, using the returned
`bool` of `consume_if` for nothing else). -/
def lexString (src : List Char) (cursor : Nat) : Token × Nat :=
  let c1 := (consumeWhile (fun c => c != '"') src cursor).2
  (Token.String, (consumeIf '"' src c1).2)

/-- The keyword table of `Lexer::identifier`'s slice-pattern `match`, arm
for arm. -/
def keywords : List (List Char × Token) :=
  [(['a', 'n', 'd'], Token.And),
   (['e', 'l', 's', 'e'], Token.Else),
   (['f', 'a', 'l', 's', 'e'], Token.False),
   (['f', 'o', 'r'], Token.For),
   (['f', 'u', 'n'], Token.Fun),
   (['i', 'f'], Token.If),
   (['i', 'n'], Token.In),
   (['n', 'i', 'l'], Token.Nil),
   (['o', 'r'], Token.Or),
   (['p', 'r', 'i', 'n', 't'], Token.Print),
   (['r', 'e', 't', 'u', 'r', 'n'], Token.Return),
   (['t', 'r', 'u', 'e'], Token.True),
   (['l', 'e', 't'], Token.Let)]

/-- `Lexer::identifier`'s classification: the accumulated characters matched
against the fixed keyword set; anything unmatched is an `Identifier`. -/
def keywordToken (chars : List Char) : Token :=
  ((keywords.find? (fun p => p.1 == chars)).map (·.2)).getD Token.Identifier

/-- `Lexer::identifier`: `ch` is the already-consumed first character;
consume the rest of the letters/underscores and classify. -/
def lexIdentifier (ch : Char) (src : List Char) (cursor : Nat) : Token × Nat :=
  let r := consumeWhile (fun c => charIsAlphabetic c || c == '_') src cursor
  (keywordToken (ch :: r.1), r.2)

/-- The single-character arms of `Lexer::next_token`'s `match`, arm for
arm. -/
def singleCharToks : List (Char × Token) :=
  [('(', Token.LeftParen), (')', Token.RightParen),
   ('[', Token.LeftBracket), (']', Token.RightBracket),
   ('{', Token.LeftBrace), ('}', Token.RightBrace),
   (',', Token.Comma), ('.', Token.Dot), ('-', Token.Minus), ('+', Token.Plus),
   (';', Token.Semicolon), ('/', Token.Slash), ('*', Token.Star)]

/-- What `Lexer::next_token`'s `match` on the consumed character does next:
emit a single-character token, look ahead for a two-character operator
(`self.if_match('=', then, else)`), scan a string / number / identifier, or
emit `Error`. The `'0'..='9'` and `'a'..='z' | 'A'..='Z' | '_'` range arms
become explicit bound tests. -/
inductive CharClass where
  | single (t : Token)
  | twoChar (then_ else_ : Token)
  | strlit
  | digit
  | alpha
  | error
deriving DecidableEq, Repr

/-- The arm of `Lexer::next_token`'s `match` selected by the consumed
character. -/
def charClass (ch : Char) : CharClass :=
  match (singleCharToks.find? (fun p => p.1 == ch)).map (·.2) with
  | some t => CharClass.single t
  | none =>
    if ch = '!' then CharClass.twoChar Token.NotEqual Token.Not
    else if ch = '=' then CharClass.twoChar Token.EqualEqual Token.Equal
    else if ch = '>' then CharClass.twoChar Token.GreaterEqual Token.Greater
    else if ch = '<' then CharClass.twoChar Token.LessEqual Token.Less
    else if ch = '"' then CharClass.strlit
    else if '0' ≤ ch && ch ≤ '9' then CharClass.digit
    else if ('a' ≤ ch && ch ≤ 'z') || ('A' ≤ ch && ch ≤ 'Z') || ch = '_' then
      CharClass.alpha
    else CharClass.error

/-- Run one arm of `Lexer::next_token`'s `match`. -/
def scanAct (cc : CharClass) (ch : Char) (src : List Char) (cursor : Nat) :
    Token × Nat :=
  match cc with
  | CharClass.single t => (t, cursor)
  | CharClass.twoChar a b => ifMatch '=' a b src cursor
  | CharClass.strlit => lexString src cursor
  | CharClass.digit => lexNumber src cursor
  | CharClass.alpha => lexIdentifier ch src cursor
  | CharClass.error => (Token.Error, cursor)

/-- The character dispatch of `Lexer::next_token` after `next()` consumed
`ch`: run the arm the character selects. -/
def scanTok (ch : Char) (src : List Char) (cursor : Nat) : Token × Nat :=
  scanAct (charClass ch) ch src cursor

/-- The body of `Lexer::next_token` once whitespace and one comment are
skipped: `c2` is the lexer's cursor after the skips. At the end of input the
result is `(none, c2)` (the skips' cursor movement is kept — it is
`self.cursor` mutation in Rust); otherwise `next()` consumes one character,
`start_pos` becomes `self.cursor - 1 = c2 + 1 - 1`, and the character is
scanned into a token. -/
def nextTokenAt (src : List Char) (c2 : Nat) : Option (Token × Nat) × Nat :=
  match src.get? c2 with
  | none => (none, c2)
  | some ch =>
    let r := scanTok ch src (c2 + 1)
    (some (r.1, c2 + 1 - 1), r.2)

/-- `Lexer::next_token`: skip whitespace and one comment, then scan. -/
def nextToken (src : List Char) (cursor : Nat) : Option (Token × Nat) × Nat :=
  nextTokenAt src (skipComment src (skipWhitespace src cursor))

theorem consumeWhile_le (p : Char → Bool) (src : List Char) (cursor : Nat) :
    cursor ≤ (consumeWhile p src cursor).2 := by
  simp [consumeWhile]

theorem consumeIf_le (ch : Char) (src : List Char) (cursor : Nat) :
    cursor ≤ (consumeIf ch src cursor).2 := by
  unfold consumeIf; split <;> simp

theorem ifMatch_le (ch : Char) (a b : Token) (src : List Char) (cursor : Nat) :
    cursor ≤ (ifMatch ch a b src cursor).2 := by
  unfold ifMatch; split <;> simp

theorem skipWhitespace_le (src : List Char) (cursor : Nat) :
    cursor ≤ skipWhitespace src cursor := consumeWhile_le _ _ _

theorem skipComment_le (src : List Char) (cursor : Nat) :
    cursor ≤ skipComment src cursor := by
  unfold skipComment
  split
  · exact le_trans (consumeWhile_le _ _ _) (skipWhitespace_le _ _)
  · exact le_refl _

theorem lexNumber_le (src : List Char) (cursor : Nat) :
    cursor ≤ (lexNumber src cursor).2 := by
  simp only [lexNumber]
  have h1 := consumeWhile_le (fun c => '0' ≤ c && c ≤ '9') src cursor
  have h2 := consumeIf_le '.' src (consumeWhile (fun c => '0' ≤ c && c ≤ '9') src cursor).2
  split
  · have h3 := consumeWhile_le (fun c => '0' ≤ c && c ≤ '9') src
      (consumeIf '.' src (consumeWhile (fun c => '0' ≤ c && c ≤ '9') src cursor).2).2
    omega
  · omega

theorem lexString_le (src : List Char) (cursor : Nat) :
    cursor ≤ (lexString src cursor).2 := by
  simp only [lexString]
  have h1 := consumeWhile_le (fun c => c != '"') src cursor
  have h2 := consumeIf_le '"' src (consumeWhile (fun c => c != '"') src cursor).2
  omega

theorem lexIdentifier_le (ch : Char) (src : List Char) (cursor : Nat) :
    cursor ≤ (lexIdentifier ch src cursor).2 := by
  simp only [lexIdentifier]
  exact consumeWhile_le _ _ _

theorem scanAct_le (cc : CharClass) (ch : Char) (src : List Char) (cursor : Nat) :
    cursor ≤ (scanAct cc ch src cursor).2 := by
  cases cc with
  | single t => exact le_refl _
  | twoChar a b => exact ifMatch_le _ _ _ _ _
  | strlit => exact lexString_le _ _
  | digit => exact lexNumber_le _ _
  | alpha => exact lexIdentifier_le _ _ _
  | error => exact le_refl _

theorem scanTok_le (ch : Char) (src : List Char) (cursor : Nat) :
    cursor ≤ (scanTok ch src cursor).2 :=
  scanAct_le (charClass ch) ch src cursor

/-- When `next_token` produces a token, the cursor strictly advanced and the
old cursor was inside the source: the scan makes progress. -/
theorem nextToken_progress {src : List Char} {cursor : Nat} {t : Token}
    {sp c' : Nat} (h : nextToken src cursor = (some (t, sp), c')) :
    cursor < c' ∧ cursor < src.length := by
  unfold nextToken nextTokenAt at h
  rcases hg : src.get? (skipComment src (skipWhitespace src cursor)) with _ | ch
  · rw [hg] at h; simp at h
  · rw [hg] at h
    simp only at h
    have hc : (scanTok ch src (skipComment src (skipWhitespace src cursor) + 1)).2 = c' :=
      congrArg Prod.snd h
    have hlt : skipComment src (skipWhitespace src cursor) < src.length :=
      (List.get?_eq_some.mp hg).1
    have hle : cursor ≤ skipComment src (skipWhitespace src cursor) :=
      le_trans (skipWhitespace_le src cursor) (skipComment_le src _)
    have hs := scanTok_le ch src (skipComment src (skipWhitespace src cursor) + 1)
    omega

theorem keywordToken_ne_eof (chars : List Char) : keywordToken chars ≠ Token.Eof := by
  unfold keywordToken
  rcases h : keywords.find? (fun p => p.1 == chars) with _ | p
  · rw [h]; simp
  · rw [h]
    have hp : p ∈ keywords := List.mem_of_find?_eq_some h
    have hne : ∀ q ∈ keywords, q.2 ≠ Token.Eof := by decide
    simpa using hne p hp

theorem charClass_single_ne_eof {ch : Char} {t : Token}
    (h : charClass ch = CharClass.single t) : t ≠ Token.Eof := by
  unfold charClass at h
  rcases hf : (singleCharToks.find? (fun p => p.1 == ch)).map (·.2) with _ | u
  · rw [hf] at h
    simp only at h
    split_ifs at h <;> cases h
  · rw [hf] at h
    simp only at h
    cases h
    rcases hg : singleCharToks.find? (fun p => p.1 == ch) with _ | q
    · rw [hg] at hf; cases hf
    · rw [hg] at hf
      have hq : q ∈ singleCharToks := List.mem_of_find?_eq_some hg
      have hne : ∀ r ∈ singleCharToks, r.2 ≠ Token.Eof := by decide
      have := hne q hq
      simp at hf
      rw [← hf]
      exact this

theorem charClass_twoChar_ne_eof {ch : Char} {a b : Token}
    (h : charClass ch = CharClass.twoChar a b) :
    a ≠ Token.Eof ∧ b ≠ Token.Eof := by
  unfold charClass at h
  rcases hf : (singleCharToks.find? (fun p => p.1 == ch)).map (·.2) with _ | u
  · rw [hf] at h
    simp only at h
    split_ifs at h <;> cases h <;> exact ⟨by simp, by simp⟩
  · rw [hf] at h
    simp only at h
    cases h

/-- The token scan never yields `Eof`: `Eof` is produced only by
`tokenize_with_context`'s final push. -/
theorem scanTok_ne_eof (ch : Char) (src : List Char) (cursor : Nat) :
    (scanTok ch src cursor).1 ≠ Token.Eof := by
  unfold scanTok
  cases hc : charClass ch with
  | single t => exact charClass_single_ne_eof hc
  | twoChar a b =>
    show (ifMatch '=' a b src cursor).1 ≠ Token.Eof
    have hab := charClass_twoChar_ne_eof hc
    unfold ifMatch
    split
    · exact hab.1
    · exact hab.2
  | strlit =>
    show (lexString src cursor).1 ≠ Token.Eof
    simp [lexString]
  | digit =>
    show (lexNumber src cursor).1 ≠ Token.Eof
    simp [lexNumber]
  | alpha =>
    show (lexIdentifier ch src cursor).1 ≠ Token.Eof
    simp only [lexIdentifier]
    exact keywordToken_ne_eof _
  | error =>
    show (Token.Error, cursor).1 ≠ Token.Eof
    simp

theorem nextToken_ne_eof {src : List Char} {cursor : Nat} {t : Token}
    {sp c' : Nat} (h : nextToken src cursor = (some (t, sp), c')) :
    t ≠ Token.Eof := by
  unfold nextToken nextTokenAt at h
  rcases hg : src.get? (skipComment src (skipWhitespace src cursor)) with _ | ch
  · rw [hg] at h; simp at h
  · rw [hg] at h
    simp only at h
    have ht : some ((scanTok ch src (skipComment src (skipWhitespace src cursor) + 1)).1,
        skipComment src (skipWhitespace src cursor) + 1 - 1) = some (t, sp) :=
      congrArg Prod.fst h
    have := scanTok_ne_eof ch src (skipComment src (skipWhitespace src cursor) + 1)
    simp at ht
    rw [← ht.1]
    exact this

/-- The scanning loop of `Lexer::tokenize_with_context`: collect tokens until
`next_token` returns `None`; also returns the final cursor (the Rust lexer's
`self.cursor` when the loop ends). Terminates because every produced token
strictly advances the cursor. -/
def tokenizeLoop (src : List Char) (cursor : Nat) : List Spanned × Nat :=
  match h : nextToken src cursor with
  | (none, c2) => ([], c2)
  | (some (t, sp), c') =>
    have : src.length - c' < src.length - cursor := by
      have := nextToken_progress h
      omega
    let r := tokenizeLoop src c'
    (⟨t, sp, c' - 1⟩ :: r.1, r.2)
termination_by src.length - cursor

theorem tokenizeLoop_eq (src : List Char) (cursor : Nat) :
    tokenizeLoop src cursor =
      match nextToken src cursor with
      | (none, c2) => ([], c2)
      | (some (t, sp), c') =>
        ((⟨t, sp, c' - 1⟩ : Spanned) :: (tokenizeLoop src c').1, (tokenizeLoop src c').2) := by
  rw [tokenizeLoop]
  split
  · rename_i heq
    rw [heq]
  · rename_i t sp c heq
    simp only [heq]

/-- Fuel-indexed twin of `tokenizeLoop`, used to evaluate the lexer on
concrete inputs (well-founded recursion does not reduce inside the kernel);
`tokenizeLoopF_eq` shows that any fuel beyond the remaining length computes
`tokenizeLoop` itself. -/
def tokenizeLoopF : Nat → List Char → Nat → List Spanned × Nat
  | 0, _, cursor => ([], cursor)
  | fuel + 1, src, cursor =>
    match nextToken src cursor with
    | (none, c2) => ([], c2)
    | (some (t, sp), c') =>
      let r := tokenizeLoopF fuel src c'
      (⟨t, sp, c' - 1⟩ :: r.1, r.2)

theorem tokenizeLoopF_eq (fuel : Nat) : ∀ (src : List Char) (cursor : Nat),
    src.length - cursor < fuel →
    tokenizeLoopF fuel src cursor = tokenizeLoop src cursor := by
  induction fuel with
  | zero => intro src cursor h; omega
  | succ n ih =>
    intro src cursor h
    rw [tokenizeLoop_eq]
    simp only [tokenizeLoopF]
    rcases hn : nextToken src cursor with ⟨o, c2⟩
    rcases o with _ | ⟨t, sp⟩
    · rfl
    · have hp := nextToken_progress hn
      have hlt : src.length - c2 < n := by omega
      simp [ih src c2 hlt]

/-- `tokenize_with_context` (`src/lexer.rs`): run the scanning loop, then push
the final `Eof` token whose span is `self.cursor as u32 - 1`. With final
cursor `0` (exactly the empty input) that `u32` subtraction underflows:
a panic under debug assertions (release builds wrap to `4294967295`);
modelled as `none`. -/
def tokenizeWithContext (src : List Char) : Option (List Spanned) :=
  let r := tokenizeLoop src 0
  if r.2 = 0 then none
  else some (r.1 ++ [⟨Token.Eof, r.2 - 1, r.2 - 1⟩])

/-- Computation rule for `tokenizeWithContext` through the fueled loop:
this is what `decide` and `rfl` evaluate on concrete inputs. -/
theorem tokenizeWithContext_eval (src : List Char) :
    tokenizeWithContext src =
      (if (tokenizeLoopF (src.length + 1) src 0).2 = 0 then none
       else some ((tokenizeLoopF (src.length + 1) src 0).1 ++
         [⟨Token.Eof, (tokenizeLoopF (src.length + 1) src 0).2 - 1,
           (tokenizeLoopF (src.length + 1) src 0).2 - 1⟩])) := by
  unfold tokenizeWithContext
  rw [tokenizeLoopF_eq (src.length + 1) src 0 (by omega)]

/-! ## AST (`src/ast.rs`)

The staged `ast.rs` snapshot lacks the `Logical` expression and the `If`
statement, while `src/interpreter.rs` (and the specification) use both; the
embedding includes them as the interpreter consumes them. -/

/-- `enum UnaryOperator`. -/
inductive UnaryOperator where
  | Not
  | Minus
deriving DecidableEq, Repr

/-- `enum BinaryOperator`. -/
inductive BinaryOperator where
  | Slash | Star | Plus | Minus
  | Greater | GreaterEqual | Less | LessEqual
  | EqualEqual | NotEqual
deriving DecidableEq, Repr

/-- `enum LogicalOperator`. -/
inductive LogicalOperator where
  | And
  | Or
deriving DecidableEq, Repr

/-- `enum Expr`: the expression tree. `f64` literals are modelled as `ℚ`. -/
inductive Expr where
  | Binary (left : Expr) (op : BinaryOperator) (right : Expr)
  | Logical (left : Expr) (op : LogicalOperator) (right : Expr)
  | Unary (op : UnaryOperator) (operand : Expr)
  | Number (n : ℚ)
  | Boolean (b : Bool)
  | Nil
  | String (s : String)
  | Variable (name : String)
  | Assignment (name : String) (value : Expr)
deriving DecidableEq, Repr

/-- `enum Stmt`: the statement tree. -/
inductive Stmt where
  | Block (stmts : List Stmt)
  | Expr (e : Expr)
  | If (cond : Expr) (thenStmt : Stmt) (elseStmt : Option Stmt)
  | Let (name : String) (initializer : Option Expr)
  | Print (e : Expr)
deriving Repr

/-! ## Parser (`src/parser.rs`)

`struct Parser` state and the recursive-descent expression grammar. The
mutually recursive productions are written with an explicit fuel argument
(each call consumes one unit); the concrete theorems instantiate the fuel
large enough that the `0` case (which reports a failure, like a pathological
parse) is never reached. -/

/-- One entry of `Parser::errors` (Rust pushes a formatted string built from
the message, the line number and the token's debug rendering; the parts are
kept structured here). -/
structure PError where
  msg : String
  line : Nat
  token : Spanned
deriving DecidableEq, Repr

/-- `struct Parser`: the token list, the source characters, the cursor, and
the collected error diagnostics. -/
structure PState where
  tokens : List Spanned
  source : List Char
  cursor : Nat
  errors : List PError
deriving DecidableEq, Repr

/-- Rust indexes `self.tokens[i]` directly, which panics out of range; the
lexer's output always ends with `Eof`, keeping every index the parser forms
in range, so the default is never reached for lexer-produced input. -/
def tokAt (s : PState) (i : Nat) : Spanned :=
  s.tokens.getD i ⟨Token.Eof, 0, 0⟩

/-- `Parser::is_at_end`: the token under the cursor is `Eof`. -/
def isAtEnd (s : PState) : Bool :=
  (tokAt s s.cursor).value == Token.Eof

/-- `Parser::advance`. -/
def advance (s : PState) : PState :=
  { s with cursor := s.cursor + 1 }

/-- `Parser::peek`: the token under the cursor, `none` at `Eof`. -/
def peek (s : PState) : Option Token :=
  if isAtEnd s then none else some (tokAt s s.cursor).value

/-- `Parser::check`. -/
def check (t : Token) (s : PState) : Bool :=
  peek s == some t

/-- `Parser::match_token`: consume the token when it is the one under the
cursor. -/
def matchToken (t : Token) (s : PState) : Bool × PState :=
  if peek s == some t then (true, advance s) else (false, s)

/-- `Parser::next`: the token under the cursor, consuming it. -/
def nextTok (s : PState) : Option Token × PState :=
  match peek s with
  | some t => (some t, advance s)
  | none => (none, s)

/-- `Parser::previous_token`. -/
def previousToken (s : PState) : Token :=
  (tokAt s (s.cursor - 1)).value

/-- `Parser::get_line`: count newlines in the source up to and including the
token's start position, 1-based (Rust loops `0..=pos` indexing `source[i]`,
which panics for a position beyond the source; spans of lexer-produced
tokens stay in range). -/
def getLine (s : PState) (tokenStartPos : Nat) : Nat :=
  (s.source.take (tokenStartPos + 1)).count '\n' + 1

/-- `Parser::error_at`: push a diagnostic naming the token at index `at_`. -/
def errorAt (s : PState) (at_ : Nat) (msg : String) : PState :=
  let token := s.tokens.getD at_ ⟨Token.Eof, 0, 0⟩
  { s with errors := s.errors ++ [⟨msg, getLine s token.startPos, token⟩] }

/-- `Parser::consume`: require the given token or report `msg`. -/
def consume (t : Token) (msg : String) (s : PState) : Except Unit Unit × PState :=
  if peek s == some t then (Except.ok (), advance s)
  else (Except.error (), errorAt s s.cursor msg)

/-- `Parser::parse_string`: the literal text between the quotes,
`source[start_pos+1 .. end_pos]`. -/
def parseStringLit (s : PState) (at_ : Nat) : String :=
  let token := s.tokens.getD at_ ⟨Token.Eof, 0, 0⟩
  String.mk ((s.source.drop (token.startPos + 1)).take (token.endPos - (token.startPos + 1)))

/-- `Parser::parse_name`: the identifier text, `source[start_pos ..= end_pos]`. -/
def parseName (s : PState) (at_ : Nat) : String :=
  let token := s.tokens.getD at_ ⟨Token.Eof, 0, 0⟩
  String.mk ((s.source.drop token.startPos).take (token.endPos - token.startPos + 1))

/-- One decimal digit's value. -/
def digitVal (c : Char) : Nat := c.toNat - '0'.toNat

/-- `Parser::parse_number`: `str::parse::<f64>` on the literal text, which
for the lexer's number tokens (digits, optionally `.` and digits) is the
exact decimal value; modelled in `ℚ` (rounding to the nearest `f64` is the
only difference, and no claim depends on it). -/
def parseDecimal (cs : List Char) : ℚ :=
  let intPart := cs.takeWhile (fun c => c != '.')
  let fracPart := (cs.drop (intPart.length + 1)).takeWhile (fun c => c != '.')
  let iv : Nat := intPart.foldl (fun a c => 10 * a + digitVal c) 0
  let fv : Nat := fracPart.foldl (fun a c => 10 * a + digitVal c) 0
  (iv : ℚ) + (fv : ℚ) / ((10 : ℚ) ^ fracPart.length)

/-- `Parser::parse_number` applied to the token at index `at_`. -/
def parseNumberLit (s : PState) (at_ : Nat) : ℚ :=
  let token := s.tokens.getD at_ ⟨Token.Eof, 0, 0⟩
  parseDecimal ((s.source.drop token.startPos).take (token.endPos - token.startPos + 1))

/-- `parse_binary_operator` (`src/parser.rs`). -/
def parseBinaryOperator (t : Token) : Except Unit BinaryOperator :=
  match t with
  | Token.Minus => Except.ok BinaryOperator.Minus
  | Token.Plus => Except.ok BinaryOperator.Plus
  | Token.Slash => Except.ok BinaryOperator.Slash
  | Token.Star => Except.ok BinaryOperator.Star
  | Token.EqualEqual => Except.ok BinaryOperator.EqualEqual
  | Token.Greater => Except.ok BinaryOperator.Greater
  | Token.GreaterEqual => Except.ok BinaryOperator.GreaterEqual
  | Token.Less => Except.ok BinaryOperator.Less
  | Token.LessEqual => Except.ok BinaryOperator.LessEqual
  | Token.NotEqual => Except.ok BinaryOperator.NotEqual
  | _ => Except.error ()

/-- `parser_unary_operator` (`src/parser.rs`). -/
def parserUnaryOperator (t : Token) : Except Unit UnaryOperator :=
  match t with
  | Token.Not => Except.ok UnaryOperator.Not
  | Token.Minus => Except.ok UnaryOperator.Minus
  | _ => Except.error ()

mutual

/-- `Parser::expr`: `expression → assignment` (the commented-out
`self.equality()` is dead code in the source). -/
def pExpr : Nat → PState → Except Unit Expr × PState
  | 0, s => (Except.error (), s)
  | fuel + 1, s => pAssignment fuel s

/-- `Parser::assignment`: parse `equality`, then if `=` follows parse the
right-hand side as `assignment` again; a non-variable left-hand side
reports "Invalid assignment target." and yields the left expression. -/
def pAssignment : Nat → PState → Except Unit Expr × PState
  | 0, s => (Except.error (), s)
  | fuel + 1, s =>
    match pEquality fuel s with
    | (Except.error e, s1) => (Except.error e, s1)
    | (Except.ok leftExpr, s1) =>
      let m := matchToken Token.Equal s1
      if m.1 then
        let equalIndex := m.2.cursor - 1
        match pAssignment fuel m.2 with
        | (Except.error e, s3) => (Except.error e, s3)
        | (Except.ok rightExpr, s3) =>
          match leftExpr with
          | Expr.Variable name => (Except.ok (Expr.Assignment name rightExpr), s3)
          | _ => (Except.ok leftExpr, errorAt s3 equalIndex "Invalid assignment target.")
      else (Except.ok leftExpr, m.2)

/-- `Parser::equality`: `comparison ( ("!=" | "==") comparison )*`. The two
`match_token` calls are joined with the short-circuiting `||`: the second
runs only when the first fails. -/
def pEquality : Nat → PState → Except Unit Expr × PState
  | 0, s => (Except.error (), s)
  | fuel + 1, s =>
    match pComparison fuel s with
    | (Except.error e, s1) => (Except.error e, s1)
    | (Except.ok left, s1) => pEqualityLoop fuel left s1

/-- The `while` loop of `Parser::equality`. -/
def pEqualityLoop : Nat → Expr → PState → Except Unit Expr × PState
  | 0, _, s => (Except.error (), s)
  | fuel + 1, left, s =>
    let m1 := matchToken Token.NotEqual s
    let m := if m1.1 then m1 else matchToken Token.EqualEqual m1.2
    if m.1 then
      match parseBinaryOperator (previousToken m.2) with
      | Except.error e => (Except.error e, m.2)
      | Except.ok op =>
        match pComparison fuel m.2 with
        | (Except.error e, s3) => (Except.error e, s3)
        | (Except.ok right, s3) => pEqualityLoop fuel (Expr.Binary left op right) s3
    else (Except.ok left, m.2)

/-- `Parser::comparison`: `term ( (">" | ">=" | "<" | "<=") term )*`. The
four `match_token` calls are joined with the non-short-circuiting `|`:
all four always run, each on the state the previous one left. -/
def pComparison : Nat → PState → Except Unit Expr × PState
  | 0, s => (Except.error (), s)
  | fuel + 1, s =>
    match pTerm fuel s with
    | (Except.error e, s1) => (Except.error e, s1)
    | (Except.ok left, s1) => pComparisonLoop fuel left s1

/-- The `while` loop of `Parser::comparison`. -/
def pComparisonLoop : Nat → Expr → PState → Except Unit Expr × PState
  | 0, _, s => (Except.error (), s)
  | fuel + 1, left, s =>
    let m1 := matchToken Token.Greater s
    let m2 := matchToken Token.GreaterEqual m1.2
    let m3 := matchToken Token.Less m2.2
    let m4 := matchToken Token.LessEqual m3.2
    if m1.1 || m2.1 || m3.1 || m4.1 then
      match parseBinaryOperator (previousToken m4.2) with
      | Except.error e => (Except.error e, m4.2)
      | Except.ok op =>
        match pTerm fuel m4.2 with
        | (Except.error e, s3) => (Except.error e, s3)
        | (Except.ok right, s3) => pComparisonLoop fuel (Expr.Binary left op right) s3
    else (Except.ok left, m4.2)

/-- `Parser::term`: `factor ( ("+" | "-") factor )*`, `match_token` calls
joined with the non-short-circuiting `|`. -/
def pTerm : Nat → PState → Except Unit Expr × PState
  | 0, s => (Except.error (), s)
  | fuel + 1, s =>
    match pFactor fuel s with
    | (Except.error e, s1) => (Except.error e, s1)
    | (Except.ok left, s1) => pTermLoop fuel left s1

/-- The `while` loop of `Parser::term`. -/
def pTermLoop : Nat → Expr → PState → Except Unit Expr × PState
  | 0, _, s => (Except.error (), s)
  | fuel + 1, left, s =>
    let m1 := matchToken Token.Plus s
    let m2 := matchToken Token.Minus m1.2
    if m1.1 || m2.1 then
      match parseBinaryOperator (previousToken m2.2) with
      | Except.error e => (Except.error e, m2.2)
      | Except.ok op =>
        match pFactor fuel m2.2 with
        | (Except.error e, s3) => (Except.error e, s3)
        | (Except.ok right, s3) => pTermLoop fuel (Expr.Binary left op right) s3
    else (Except.ok left, m2.2)

/-- `Parser::factor`: `unary ( ("*" | "/") unary )*`, `match_token` calls
joined with the non-short-circuiting `|`. -/
def pFactor : Nat → PState → Except Unit Expr × PState
  | 0, s => (Except.error (), s)
  | fuel + 1, s =>
    match pUnary fuel s with
    | (Except.error e, s1) => (Except.error e, s1)
    | (Except.ok left, s1) => pFactorLoop fuel left s1

/-- The `while` loop of `Parser::factor`. -/
def pFactorLoop : Nat → Expr → PState → Except Unit Expr × PState
  | 0, _, s => (Except.error (), s)
  | fuel + 1, left, s =>
    let m1 := matchToken Token.Star s
    let m2 := matchToken Token.Slash m1.2
    if m1.1 || m2.1 then
      match parseBinaryOperator (previousToken m2.2) with
      | Except.error e => (Except.error e, m2.2)
      | Except.ok op =>
        match pUnary fuel m2.2 with
        | (Except.error e, s3) => (Except.error e, s3)
        | (Except.ok right, s3) => pFactorLoop fuel (Expr.Binary left op right) s3
    else (Except.ok left, m2.2)

/-- `Parser::unary`: `("!" | "-") unary | primary`. The two `match_token`
calls are joined with the non-short-circuiting `|`, so both always run —
after a matched `!` the second call runs on the advanced state and can also
consume a `-`. -/
def pUnary : Nat → PState → Except Unit Expr × PState
  | 0, s => (Except.error (), s)
  | fuel + 1, s =>
    let m1 := matchToken Token.Not s
    let m2 := matchToken Token.Minus m1.2
    if m1.1 || m2.1 then
      match parserUnaryOperator (previousToken m2.2) with
      | Except.error e => (Except.error e, m2.2)
      | Except.ok op =>
        match pUnary fuel m2.2 with
        | (Except.error e, s3) => (Except.error e, s3)
        | (Except.ok right, s3) => (Except.ok (Expr.Unary op right), s3)
    else pPrimary fuel m2.2

/-- `Parser::primary`: literal, identifier, or `( expression )`. -/
def pPrimary : Nat → PState → Except Unit Expr × PState
  | 0, s => (Except.error (), s)
  | fuel + 1, s =>
    match nextTok s with
    | (some t, s1) =>
      match t with
      | Token.Nil => (Except.ok Expr.Nil, s1)
      | Token.False => (Except.ok (Expr.Boolean false), s1)
      | Token.True => (Except.ok (Expr.Boolean true), s1)
      | Token.Number => (Except.ok (Expr.Number (parseNumberLit s1 (s1.cursor - 1))), s1)
      | Token.String => (Except.ok (Expr.String (parseStringLit s1 (s1.cursor - 1))), s1)
      | Token.Identifier => (Except.ok (Expr.Variable (parseName s1 (s1.cursor - 1))), s1)
      | Token.LeftParen => pGrouping fuel s1
      | _ => (Except.error (), s1)
    | (none, s1) => (Except.error (), errorAt s1 s1.cursor "Expected Primary Token")

/-- `Parser::grouping`: parse the inner expression, then require `)` (the
Rust code holds the expression result, runs `consume` with `?`, and only
then returns the held result). -/
def pGrouping : Nat → PState → Except Unit Expr × PState
  | 0, s => (Except.error (), s)
  | fuel + 1, s =>
    let r := pExpr fuel s
    match consume Token.RightParen "Expected ')' after expr." r.2 with
    | (Except.error _, s2) => (Except.error (), s2)
    | (Except.ok _, s2) => (r.1, s2)

end

/-- `Parser::new`: tokenize and start at cursor `0` with no errors
(`none` when tokenization panics, see `tokenizeWithContext`). -/
def parserNew (src : String) : Option PState :=
  (tokenizeWithContext src.data).map (fun toks => ⟨toks, src.data, 0, []⟩)

/-- `Parser::new(src).expr()` — the parser exercised exactly as the
repository's own unit tests drive it. -/
def exprFromSource (fuel : Nat) (src : String) : Option (Except Unit Expr × PState) :=
  (parserNew src).map (pExpr fuel)

/-! ## Values (`src/value.rs`) -/

/-- `enum Value`: the runtime tagged union. `f64` is modelled as `ℚ`. -/
inductive Value where
  | Bool (b : Bool)
  | Num (q : ℚ)
  | Nil
  | String (s : String)
deriving DecidableEq, Repr

/-- Derived `PartialEq for Value`: same variant with equal payload (on `ℚ`
payloads the `f64` NaN caveat does not arise). -/
def valueEq (a b : Value) : Bool := a == b

/-- `impl Not for Value`: boolean negation, a type error otherwise. -/
def valueNot : Value → Except String Value
  | Value.Bool b => Except.ok (Value.Bool (!b))
  | _ => Except.error "oprands must be boolean"

/-- `impl Div for Value`. Rust `f64` division by zero yields an infinity or
NaN; in the `ℚ` model `a / 0 = 0` — no claim exercises division by zero. -/
def valueDiv : Value → Value → Except String Value
  | Value.Num a, Value.Num b => Except.ok (Value.Num (a / b))
  | _, _ => Except.error "Both operands must be of number type."

/-- `impl Mul for Value`. -/
def valueMul : Value → Value → Except String Value
  | Value.Num a, Value.Num b => Except.ok (Value.Num (a * b))
  | _, _ => Except.error "Both operands must be of number type."

/-- `impl Sub for Value`. -/
def valueSub : Value → Value → Except String Value
  | Value.Num a, Value.Num b => Except.ok (Value.Num (a - b))
  | _, _ => Except.error "Both operands must be of number type."

/-- `impl Add for Value`: numeric addition, string concatenation, a type
error for every other pairing. -/
def valueAdd : Value → Value → Except String Value
  | Value.Num a, Value.Num b => Except.ok (Value.Num (a + b))
  | Value.String a, Value.String b => Except.ok (Value.String (a ++ b))
  | _, _ => Except.error "both oprands must be number or string type."

/-- The derived `PartialOrd for Value`: Rust compares the variant order of
declaration (`Bool < Num < Nil < String`) first, then the payloads
(`false < true`; numeric order; `Nil` equal to `Nil`; byte-lexicographic
strings, which agrees with `compare` on the character lists used here). -/
def variantRank : Value → Nat
  | Value.Bool _ => 0
  | Value.Num _ => 1
  | Value.Nil => 2
  | Value.String _ => 3

/-- `Value::partial_cmp` of the derived `PartialOrd` (total on the `ℚ`
model — `f64` NaN is the only source of `None` and does not arise). -/
def partialCmp (a b : Value) : Option Ordering :=
  match a, b with
  | Value.Bool x, Value.Bool y => some (compare x y)
  | Value.Num x, Value.Num y => some (compare x y)
  | Value.Nil, Value.Nil => some Ordering.eq
  | Value.String x, Value.String y => some (compare x y)
  | x, y => some (compare (variantRank x) (variantRank y))

/-! ## Environment (`src/environment.rs`) -/

/-- One lexical scope: `HashMap<String, Option<Value>>`, modelled as an
association list whose insert replaces an existing key. -/
abbrev Scope := List (String × Option Value)

/-- `HashMap::contains_key`. -/
def scopeContains (sc : Scope) (name : String) : Bool :=
  sc.any (fun p => p.1 == name)

/-- `HashMap` lookup: `some (some v)` bound to a value, `some none` bound
with no value, `none` not bound. -/
def scopeGet (sc : Scope) (name : String) : Option (Option Value) :=
  (sc.find? (fun p => p.1 == name)).map (·.2)

/-- `HashMap::insert`: replace the existing binding or add one. -/
def scopeInsert (sc : Scope) (name : String) (v : Option Value) : Scope :=
  if scopeContains sc name then
    sc.map (fun p => if p.1 == name then (name, v) else p)
  else sc ++ [(name, v)]

/-- `struct Environment`: the stack of scopes, index 0 the global scope and
the last element the innermost (the Rust `Vec` order). -/
structure Env where
  scopes : List Scope
deriving DecidableEq, Repr

/-- `Environment::new`: one predefined global scope. -/
def envNew : Env := ⟨[[]]⟩

/-- `Environment::begin_scope`: push an empty scope. -/
def beginScope (e : Env) : Env := ⟨e.scopes ++ [[]]⟩

/-- `Environment::end_scope`: `Vec::pop` (no panic on empty). -/
def endScope (e : Env) : Env := ⟨e.scopes.dropLast⟩

/-- Insert into the last (innermost) scope; Rust `last_mut().expect(..)`
panics on an empty stack, which never occurs (the stack starts with the
global scope and only block execution pops, paired with a prior push). -/
def defineInLast (name : String) (v : Option Value) : List Scope → List Scope
  | [] => []
  | [sc] => [scopeInsert sc name v]
  | sc :: rest => sc :: defineInLast name v rest

/-- `Environment::define_var`. -/
def defineVar (e : Env) (name : String) (v : Option Value) : Env :=
  ⟨defineInLast name v e.scopes⟩

/-- The loop of `Environment::get_var`: the first scope, innermost (= last)
to outermost, that contains the key wins; the result keeps the
distinction bound-to-value / bound-without-value / unbound. -/
def lookupStack (name : String) : List Scope → Option (Option Value)
  | [] => none
  | sc :: rest =>
    match lookupStack name rest with
    | some r => some r
    | none => scopeGet sc name

/-- `Environment::get_var`. -/
def getVar (e : Env) (name : String) : Except String Value :=
  match lookupStack name e.scopes with
  | some (some v) => Except.ok v
  | some none => Except.error "Variable is not initialized."
  | none => Except.error "Variable is undefined."

/-- The loop of `Environment::assign_var`: overwrite the binding in the
innermost (= last) scope that contains the key, then `break`; the flag
reports whether a scope contained it. -/
def assignInStack (name : String) (v : Value) : List Scope → List Scope × Bool
  | [] => ([], false)
  | sc :: rest =>
    let r := assignInStack name v rest
    if r.2 then (sc :: r.1, true)
    else if scopeContains sc name then (scopeInsert sc name (some v) :: r.1, true)
    else (sc :: r.1, false)

/-- `Environment::assign_var`: after the loop (which overwrites the nearest
binding and `break`s), the function unconditionally returns
`Err(format!("Undefined variable '{}'", name))` — there is no `Ok` path. -/
def assignVar (e : Env) (name : String) (v : Value) : Env × Except String Value :=
  ((⟨(assignInStack name v e.scopes).1⟩ : Env),
   Except.error ("Undefined variable '" ++ name ++ "'"))

/-! ## Interpreter (`src/interpreter.rs`) -/

/-- What one interpreter run writes to standard output: the `Stmt => {:?}`
debug line `interpret` prints before each statement, a `Print` statement's
value, or a `RuntimeErr: {}` report. -/
inductive Output where
  | stmtDebug (s : Stmt)
  | printed (v : Value)
  | runtimeErr (msg : String)
deriving Repr

/-- `Interpreter::binary`'s dispatch on the operator once both operands are
evaluated (the Rust operator-impl calls on `Value`). -/
def binaryOp (op : BinaryOperator) (l r : Value) : Except String Value :=
  match op with
  | BinaryOperator.Slash => valueDiv l r
  | BinaryOperator.Star => valueMul l r
  | BinaryOperator.Plus => valueAdd l r
  | BinaryOperator.Minus => valueSub l r
  | BinaryOperator.Greater => Except.ok (Value.Bool (partialCmp l r == some Ordering.gt))
  | BinaryOperator.GreaterEqual =>
    Except.ok (Value.Bool (partialCmp l r == some Ordering.gt
      || partialCmp l r == some Ordering.eq))
  | BinaryOperator.Less => Except.ok (Value.Bool (partialCmp l r == some Ordering.lt))
  | BinaryOperator.LessEqual =>
    Except.ok (Value.Bool (partialCmp l r == some Ordering.lt
      || partialCmp l r == some Ordering.eq))
  | BinaryOperator.EqualEqual => Except.ok (Value.Bool (valueEq l r))
  | BinaryOperator.NotEqual => Except.ok (Value.Bool (!valueEq l r))

/-- `Interpreter::evaluate`: expression evaluation, threading the
environment (`&mut self.envs`) and propagating `Err` exactly where the Rust
`?` operators do. `Unary` applies `!` (boolean negation) for **both**
`Not` and `Minus`, as the source does. -/
def eval (env : Env) : Expr → Env × Except String Value
  | Expr.Binary l op r =>
    match eval env l with
    | (env1, Except.error e) => (env1, Except.error e)
    | (env1, Except.ok lv) =>
      match eval env1 r with
      | (env2, Except.error e) => (env2, Except.error e)
      | (env2, Except.ok rv) => (env2, binaryOp op lv rv)
  | Expr.Logical l op r =>
    match eval env l with
    | (env1, Except.error e) => (env1, Except.error e)
    | (env1, Except.ok lv) =>
      match op with
      | LogicalOperator.And =>
        if valueEq lv (Value.Bool false) then (env1, Except.ok lv) else eval env1 r
      | LogicalOperator.Or =>
        if valueEq lv (Value.Bool true) then (env1, Except.ok lv) else eval env1 r
  | Expr.Unary op e =>
    match eval env e with
    | (env1, Except.error er) => (env1, Except.error er)
    | (env1, Except.ok v) =>
      match op with
      | UnaryOperator.Not => (env1, valueNot v)
      | UnaryOperator.Minus => (env1, valueNot v)
  | Expr.Number n => (env, Except.ok (Value.Num n))
  | Expr.Boolean b => (env, Except.ok (Value.Bool b))
  | Expr.Nil => (env, Except.ok Value.Nil)
  | Expr.String s => (env, Except.ok (Value.String s))
  | Expr.Variable name => (env, getVar env name)
  | Expr.Assignment name e =>
    match eval env e with
    | (env1, Except.error er) => (env1, Except.error er)
    | (env1, Except.ok v) => assignVar env1 name v

mutual

/-- `Interpreter::run`: statement execution. `Block` begins a scope, runs
the statements, and ends the scope only on the success path — the Rust `?`
inside the loop returns before `end_scope()`. -/
def run (env : Env) : Stmt → Env × List Output × Except String Unit
  | Stmt.Block stmts =>
    match runList (beginScope env) stmts with
    | (env2, outs, Except.ok _) => (endScope env2, outs, Except.ok ())
    | (env2, outs, Except.error e) => (env2, outs, Except.error e)
  | Stmt.Expr e =>
    match eval env e with
    | (env1, Except.error er) => (env1, [], Except.error er)
    | (env1, Except.ok _) => (env1, [], Except.ok ())
  | Stmt.If cond thenStmt elseStmt =>
    match eval env cond with
    | (env1, Except.error er) => (env1, [], Except.error er)
    | (env1, Except.ok v) =>
      if valueEq v (Value.Bool true) then run env1 thenStmt
      else
        match elseStmt with
        | some s => run env1 s
        | none => (env1, [], Except.ok ())
  | Stmt.Print e =>
    match eval env e with
    | (env1, Except.error er) => (env1, [], Except.error er)
    | (env1, Except.ok v) => (env1, [Output.printed v], Except.ok ())
  | Stmt.Let name initializer =>
    match initializer with
    | none => (defineVar env name (some Value.Nil), [], Except.ok ())
    | some e =>
      match eval env e with
      | (env1, Except.error er) => (env1, [], Except.error er)
      | (env1, Except.ok v) => (defineVar env1 name (some v), [], Except.ok ())

/-- The `for` loop of `Interpreter::block`: run the statements in order,
stopping at the first failure (the Rust `self.run(stmt)?`). -/
def runList (env : Env) : List Stmt → Env × List Output × Except String Unit
  | [] => (env, [], Except.ok ())
  | s :: rest =>
    match run env s with
    | (env1, o1, Except.ok _) =>
      match runList env1 rest with
      | (env2, o2, r) => (env2, o1 ++ o2, r)
    | (env1, o1, Except.error e) => (env1, o1, Except.error e)

end

/-- `Interpreter::interpret`'s statement loop: print the `Stmt => {:?}`
debug line, run the statement, report a runtime error with `RuntimeErr: {}`
and **continue with the next top-level statement** either way. (The Rust
method first obtains the statements from `parse`; the loop is taken over a
statement list directly.) -/
def interpret (env : Env) : List Stmt → Env × List Output
  | [] => (env, [])
  | stmt :: rest =>
    let r := run env stmt
    let errOut : List Output :=
      match r.2.2 with
      | Except.ok _ => []
      | Except.error e => [Output.runtimeErr ("RuntimeErr: " ++ e)]
    let rest' := interpret r.1 rest
    (rest'.1, Output.stmtDebug stmt :: (r.2.1 ++ errOut ++ rest'.2))

/-! ## Helper lemmas -/

theorem assignInStack_length (name : String) (v : Value) :
    ∀ l : List Scope, ((assignInStack name v l).1).length = l.length := by
  intro l
  induction l with
  | nil => rfl
  | cons sc rest ih =>
    simp only [assignInStack]
    split_ifs <;> simp [ih]

theorem defineInLast_length (name : String) (v : Option Value) :
    ∀ l : List Scope, (defineInLast name v l).length = l.length := by
  intro l
  induction l with
  | nil => rfl
  | cons sc rest ih =>
    cases rest with
    | nil => rfl
    | cons sc2 rest2 =>
      have h : defineInLast name v (sc :: sc2 :: rest2) =
          sc :: defineInLast name v (sc2 :: rest2) := rfl
      rw [h]
      simp [ih]

/-- Expression evaluation never changes the number of scopes: `assign_var`
overwrites values in place, and nothing else in `evaluate` touches the
scope stack. -/
theorem eval_scopes_length (e : Expr) : ∀ env : Env,
    ((eval env e).1).scopes.length = env.scopes.length := by
  induction e with
  | Binary l op r ihl ihr =>
    intro env
    simp only [eval]
    split
    · rename_i env1 er heq
      have t := ihl env; rw [heq] at t; simpa using t
    · rename_i env1 lv heq
      have t1 := ihl env; rw [heq] at t1; simp at t1
      split
      · rename_i env2 er heq2
        have t2 := ihr env1; rw [heq2] at t2
        simp at t2 ⊢
        omega
      · rename_i env2 rv heq2
        have t2 := ihr env1; rw [heq2] at t2
        simp at t2 ⊢
        omega
  | Logical l op r ihl ihr =>
    intro env
    simp only [eval]
    split
    · rename_i env1 er heq
      have t := ihl env; rw [heq] at t; simpa using t
    · rename_i env1 lv heq
      have t1 := ihl env; rw [heq] at t1; simp at t1
      have t2 := ihr env1
      cases op with
      | And =>
        simp only
        split
        · simpa using t1
        · simp at t2 ⊢; omega
      | Or =>
        simp only
        split
        · simpa using t1
        · simp at t2 ⊢; omega
  | Unary op e ih =>
    intro env
    simp only [eval]
    split
    · rename_i env1 er heq
      have t := ih env; rw [heq] at t; simpa using t
    · rename_i env1 v heq
      have t := ih env; rw [heq] at t
      cases op <;> simpa using t
  | Number n => intro env; rfl
  | Boolean b => intro env; rfl
  | Nil => intro env; rfl
  | String s => intro env; rfl
  | Variable name => intro env; rfl
  | Assignment name e ih =>
    intro env
    simp only [eval]
    split
    · rename_i env1 er heq
      have t := ih env; rw [heq] at t; simpa using t
    · rename_i env1 v heq
      have t := ih env; rw [heq] at t; simp at t
      simp [assignVar, assignInStack_length]
      omega

mutual

/-- Statement execution never shrinks the scope stack, and restores its
length exactly on the success path. -/
theorem run_scopes (s : Stmt) (env : Env) :
    env.scopes.length ≤ ((run env s).1).scopes.length ∧
    ((run env s).2.2 = Except.ok () →
      ((run env s).1).scopes.length = env.scopes.length) := by
  cases s with
  | Block stmts =>
    have hd := runList_scopes stmts (beginScope env)
    simp only [run]
    split
    · rename_i env2 outs u heq
      rw [heq] at hd
      simp only at hd
      have h2 := hd.2 (by trivial)
      simp [beginScope] at h2
      constructor
      · simp [endScope]; omega
      · intro _; simp [endScope]; omega
    · rename_i env2 outs er heq
      rw [heq] at hd
      simp only at hd
      have h1 := hd.1
      simp [beginScope] at h1
      constructor
      · simp; omega
      · intro hok; simp at hok
  | Expr e =>
    have t := eval_scopes_length e env
    simp only [run]
    split
    · rename_i env1 er heq
      rw [heq] at t; simp at t
      exact ⟨by simp [t], fun hok => by simp at hok⟩
    · rename_i env1 v heq
      rw [heq] at t; simp at t
      exact ⟨by simp [t], fun _ => by simp [t]⟩
  | If cond thenStmt elseStmt =>
    have t := eval_scopes_length cond env
    simp only [run]
    split
    · rename_i env1 er heq
      rw [heq] at t; simp at t
      exact ⟨by simp [t], fun hok => by simp at hok⟩
    · rename_i env1 v heq
      rw [heq] at t; simp at t
      split
      · have hr := run_scopes thenStmt env1
        exact ⟨le_trans (le_of_eq t.symm) hr.1, fun hok => by rw [hr.2 hok, t]⟩
      · cases elseStmt with
        | some s2 =>
          simp only
          have hr := run_scopes s2 env1
          exact ⟨le_trans (le_of_eq t.symm) hr.1, fun hok => by rw [hr.2 hok, t]⟩
        | none =>
          exact ⟨by simp [t], fun _ => by simp [t]⟩
  | Print e =>
    have t := eval_scopes_length e env
    simp only [run]
    split
    · rename_i env1 er heq
      rw [heq] at t; simp at t
      exact ⟨by simp [t], fun hok => by simp at hok⟩
    · rename_i env1 v heq
      rw [heq] at t; simp at t
      exact ⟨by simp [t], fun _ => by simp [t]⟩
  | Let name initializer =>
    cases initializer with
    | none =>
      simp only [run]
      constructor
      · simp [defineVar, defineInLast_length]
      · intro _; simp [defineVar, defineInLast_length]
    | some e =>
      have t := eval_scopes_length e env
      simp only [run]
      split
      · rename_i env1 er heq
        rw [heq] at t; simp at t
        exact ⟨by simp [t], fun hok => by simp at hok⟩
      · rename_i env1 v heq
        rw [heq] at t; simp at t
        constructor
        · simp [defineVar, defineInLast_length]; omega
        · intro _; simp [defineVar, defineInLast_length]; omega

theorem runList_scopes (l : List Stmt) (env : Env) :
    env.scopes.length ≤ ((runList env l).1).scopes.length ∧
    ((runList env l).2.2 = Except.ok () →
      ((runList env l).1).scopes.length = env.scopes.length) := by
  cases l with
  | nil => exact ⟨le_refl _, fun _ => rfl⟩
  | cons s rest =>
    have hs := run_scopes s env
    simp only [runList]
    split
    · rename_i env1 o1 u heq
      rw [heq] at hs
      simp only at hs
      have h1 := hs.2 (by trivial)
      have hr := runList_scopes rest env1
      constructor
      · have ha := hr.1
        simp
        omega
      · intro hok
        simp at hok ⊢
        have h2 := hr.2 hok
        omega
    · rename_i env1 o1 er heq
      rw [heq] at hs
      simp only at hs
      exact ⟨hs.1, fun hok => by simp at hok⟩

end

/-- `interpret` runs every statement of the second list after the first,
whatever happened in the first: the outputs concatenate and the environment
threads through. -/
theorem interpret_append (l1 : List Stmt) : ∀ (env : Env) (l2 : List Stmt),
    interpret env (l1 ++ l2) =
      ((interpret (interpret env l1).1 l2).1,
       (interpret env l1).2 ++ (interpret (interpret env l1).1 l2).2) := by
  induction l1 with
  | nil => intro env l2; simp [interpret]
  | cons s rest ih =>
    intro env l2
    simp only [List.cons_append, interpret, List.append_eq]
    rw [ih (run env s).1 l2]
    simp

theorem tokenizeLoopF_no_eof (fuel : Nat) : ∀ (src : List Char) (cursor : Nat),
    Token.Eof ∉ ((tokenizeLoopF fuel src cursor).1).map Spanned.value := by
  induction fuel with
  | zero => intro src cursor; simp [tokenizeLoopF]
  | succ n ih =>
    intro src cursor
    simp only [tokenizeLoopF]
    rcases hn : nextToken src cursor with ⟨o, c2⟩
    rcases o with _ | ⟨t, sp⟩
    · simp
    · have ht := nextToken_ne_eof hn
      have hr := ih src c2
      simp only [List.map_cons, List.mem_cons]
      rintro (h | h)
      · exact ht h.symm
      · exact hr h

/-- `valueEq` is propositional equality on the `ℚ`-modelled values. -/
theorem valueEq_iff (a b : Value) : valueEq a b = true ↔ a = b := by
  simp [valueEq]

/-- The cursor `next_token` leaves behind never moves backwards (the skips
only advance, and a consumed token advances further). -/
theorem nextToken_snd_ge (src : List Char) (cursor : Nat) :
    cursor ≤ (nextToken src cursor).2 := by
  unfold nextToken nextTokenAt
  have hle : cursor ≤ skipComment src (skipWhitespace src cursor) :=
    le_trans (skipWhitespace_le src cursor) (skipComment_le src _)
  rcases hg : src.get? (skipComment src (skipWhitespace src cursor)) with _ | ch
  · simpa using hle
  · simp only
    have := scanTok_le ch src (skipComment src (skipWhitespace src cursor) + 1)
    omega

/-- When `next_token` finds no token, the whole source has been scanned. -/
theorem nextToken_none_at_end {src : List Char} {cursor c2 : Nat}
    (h : nextToken src cursor = (none, c2)) : src.length ≤ c2 := by
  unfold nextToken nextTokenAt at h
  rcases hg : src.get? (skipComment src (skipWhitespace src cursor)) with _ | ch
  · rw [hg] at h
    simp only at h
    have hlen : src.length ≤ skipComment src (skipWhitespace src cursor) := by
      by_contra hc
      push_neg at hc
      rw [List.get?_eq_get hc] at hg
      cases hg
    injection h with h1 h2
    omega
  · rw [hg] at h
    simp at h

theorem tokenizeLoopF_snd_ge (fuel : Nat) : ∀ (src : List Char) (cursor : Nat),
    cursor ≤ (tokenizeLoopF fuel src cursor).2 := by
  induction fuel with
  | zero => intro src cursor; exact le_refl _
  | succ n ih =>
    intro src cursor
    simp only [tokenizeLoopF]
    have hge := nextToken_snd_ge src cursor
    rcases hn : nextToken src cursor with ⟨o, c2⟩
    rw [hn] at hge
    rcases o with _ | ⟨t, sp⟩
    · simpa using hge
    · simp only
      have := ih src c2
      simp at hge
      omega

/-- `tokenizeLoop` through its fueled twin, for rewriting. -/
theorem tokenizeLoop_as_fuel (src : List Char) (cursor : Nat) :
    tokenizeLoop src cursor = tokenizeLoopF (src.length - cursor + 1) src cursor :=
  (tokenizeLoopF_eq _ _ _ (by omega)).symm

/-- On a nonempty source the scanning loop ends with a positive cursor, so
the `Eof` span subtraction does not underflow. -/
theorem tokenizeLoop_final_pos {src : List Char} (hne : src ≠ []) :
    1 ≤ (tokenizeLoop src 0).2 := by
  rw [tokenizeLoop_eq]
  have hlen : 1 ≤ src.length := by
    cases src with
    | nil => exact absurd rfl hne
    | cons a l => simp
  rcases hn : nextToken src 0 with ⟨o, c2⟩
  rcases o with _ | ⟨t, sp⟩
  · have := nextToken_none_at_end hn
    simp only
    omega
  · simp only
    have hp := nextToken_progress hn
    rw [tokenizeLoop_as_fuel]
    have := tokenizeLoopF_snd_ge (src.length - c2 + 1) src c2
    omega

/-! ## Claim theorems -/

/-- **C1** — `Environment::assign_var` on an environment whose single scope
binds `x` to `Num 1`: the binding *is* overwritten in place to `Num 2` (the
innermost-first search and in-place insert work as specified), yet the
function still returns `Err "Undefined variable 'x'"`: the loop `break`s
after the insert and then falls through to the unconditional `Err` — the
`Ok(value)` return described by the specification does not exist in the
code. Evaluating `Assignment("x", Number 2)` on the bound name therefore
mutates the environment *and* reports `UndefinedVariable`. -/
theorem assign_var_overwrites_but_always_errors :
    lookupStack "x" [[("x", some (Value.Num 1))]] = some (some (Value.Num 1)) ∧
    assignVar ⟨[[("x", some (Value.Num 1))]]⟩ "x" (Value.Num 2) =
      (⟨[[("x", some (Value.Num 2))]]⟩, Except.error "Undefined variable 'x'") ∧
    eval ⟨[[("x", some (Value.Num 1))]]⟩ (Expr.Assignment "x" (Expr.Number 2)) =
      (⟨[[("x", some (Value.Num 2))]]⟩, Except.error "Undefined variable 'x'") :=
  ⟨rfl, rfl, rfl⟩

/-- **C2 counterexample** — running `let x; print x;` from a fresh
environment: `x` is bound to `Some(Nil)` (not to the distinct no-value
state), the read succeeds, and `Nil` is printed; no `UninitializedVariable`
(or any) runtime error is reported, contrary to the claim. -/
theorem let_without_initializer_prints_nil :
    interpret envNew [Stmt.Let "x" none, Stmt.Print (Expr.Variable "x")] =
      (⟨[[("x", some Value.Nil)]]⟩,
       [Output.stmtDebug (Stmt.Let "x" none),
        Output.stmtDebug (Stmt.Print (Expr.Variable "x")),
        Output.printed Value.Nil]) ∧
    getVar ⟨[[("x", some Value.Nil)]]⟩ "x" = Except.ok Value.Nil :=
  ⟨rfl, rfl⟩

/-- **C2 amended** — `let x;` with no initializer binds the name to
`Some(Nil)` in the current scope (`let_stmt` starts from `Value::Nil` and
always wraps the value in `Some`), so `let x; print x;` prints `Nil` and
produces no error. The distinct no-value state exists in the environment —
`get_var` answers `UninitializedVariable` for a binding that holds `None` —
but `Let` never creates such a binding. -/
theorem let_binds_some_nil :
    (∀ (env : Env) (name : String),
      run env (Stmt.Let name none) =
        (defineVar env name (some Value.Nil), [], Except.ok ())) ∧
    (interpret envNew [Stmt.Let "x" none, Stmt.Print (Expr.Variable "x")]).2 =
      [Output.stmtDebug (Stmt.Let "x" none),
       Output.stmtDebug (Stmt.Print (Expr.Variable "x")),
       Output.printed Value.Nil] ∧
    getVar ⟨[[("x", none)]]⟩ "x" = Except.error "Variable is not initialized." :=
  ⟨fun _ _ => rfl, rfl, rfl⟩

/-- **C3 counterexample** — executing `{ y; }` (a block whose inner
statement fails with `UndefinedVariable`) from the fresh one-scope
environment ends with **two** scopes on the stack: the error propagates out
of the block before `end_scope()` runs, so the depth after the failed block
is 2 ≠ 1, contrary to the claim that the depth is restored on every exit
path. -/
theorem block_failure_leaks_scope :
    run envNew (Stmt.Block [Stmt.Expr (Expr.Variable "y")]) =
      (⟨[[], []]⟩, [], Except.error "Variable is undefined.") ∧
    (⟨[[], []]⟩ : Env).scopes.length ≠ envNew.scopes.length :=
  ⟨rfl, by decide⟩

/-- **C3 amended** — `Block` pushes exactly one scope and pops it only on
the success path: when every contained statement succeeds the scope-stack
depth is restored exactly; when an inner statement fails the `?` returns
before `end_scope()`, so the pushed scope (and any scopes leaked by nested
failing blocks) remain — the depth after a failed block is strictly greater
than before it. -/
theorem block_scope_depth :
    (∀ (stmts : List Stmt) (env : Env),
      (run env (Stmt.Block stmts)).2.2 = Except.ok () →
      ((run env (Stmt.Block stmts)).1).scopes.length = env.scopes.length) ∧
    (∀ (stmts : List Stmt) (env : Env) (e : String),
      (run env (Stmt.Block stmts)).2.2 = Except.error e →
      env.scopes.length < ((run env (Stmt.Block stmts)).1).scopes.length) := by
  constructor
  · intro stmts env hok
    exact (run_scopes (Stmt.Block stmts) env).2 hok
  · intro stmts env e herr
    have hd := runList_scopes stmts (beginScope env)
    rcases hres : runList (beginScope env) stmts with ⟨env2, outs, r⟩
    rw [hres] at hd
    simp only at hd
    cases r with
    | ok u =>
      have hrun : run env (Stmt.Block stmts) = (endScope env2, outs, Except.ok ()) := by
        simp only [run, hres]
      rw [hrun] at herr
      simp at herr
    | error er =>
      have hrun : run env (Stmt.Block stmts) = (env2, outs, Except.error er) := by
        simp only [run, hres]
      rw [hrun]
      have h1 := hd.1
      simp [beginScope] at h1
      simp
      omega

/-- Witness for `block_scope_depth`: the empty block `{}` restores depth 1,
and the failing block `{ y; }` leaves depth strictly greater than 1. -/
theorem block_scope_depth_witness :
    ((run envNew (Stmt.Block [])).1).scopes.length = envNew.scopes.length ∧
    envNew.scopes.length <
      ((run envNew (Stmt.Block [Stmt.Expr (Expr.Variable "y")])).1).scopes.length :=
  ⟨block_scope_depth.1 [] envNew rfl,
   block_scope_depth.2 [Stmt.Expr (Expr.Variable "y")] envNew
     "Variable is undefined." rfl⟩

/-- **C4 counterexample** — parsing the expression of `false or false`: the
token stream does contain `Or`, but `expr` succeeds after consuming only
the first `false`, returning `Boolean false` with the cursor still at index
1 (on the `or` token) — no `Logical` node is built, contrary to the claimed
`logic_or` layer. -/
theorem or_yields_left_operand_only :
    (exprFromSource 100 "false or false").map (fun p => (p.1, p.2.cursor)) =
      some (Except.ok (Expr.Boolean false), 1) ∧
    (tokenizeWithContext "false or false".data).map (List.map Spanned.value) =
      some [Token.False, Token.Or, Token.False, Token.Eof] := by
  constructor
  · simp only [exprFromSource, parserNew, tokenizeWithContext_eval]
    rfl
  · rw [tokenizeWithContext_eval]
    rfl

/-- **C4 amended** — the expression grammar has **no** `logic_or` or
`logic_and` layers: `expression → assignment` and `assignment` falls
through directly to `equality` (`assignment → IDENTIFIER '=' assignment |
equality`), with the right-hand side of `=` parsed by `assignment` itself.
Parsing `<operand> or <operand>` or `<operand> and <operand>` succeeds but
yields only the left operand, leaving the `or`/`and` token unconsumed;
chained assignment still parses right-associatively. -/
theorem parser_has_no_logical_layers :
    ((exprFromSource 100 "false or false").map (fun p => (p.1, p.2.cursor)) =
      some (Except.ok (Expr.Boolean false), 1)) ∧
    ((exprFromSource 100 "false and false").map (fun p => (p.1, p.2.cursor)) =
      some (Except.ok (Expr.Boolean false), 1)) ∧
    ((exprFromSource 100 "a = true").map (fun p => p.1) =
      some (Except.ok (Expr.Assignment "a" (Expr.Boolean true)))) ∧
    ((exprFromSource 100 "a = b = true").map (fun p => p.1) =
      some (Except.ok (Expr.Assignment "a" (Expr.Assignment "b" (Expr.Boolean true))))) ∧
    (∀ (fuel : Nat) (s : PState), pExpr (fuel + 1) s = pAssignment fuel s) := by
  refine ⟨?_, ?_, ?_, ?_, fun fuel s => rfl⟩ <;>
    · simp only [exprFromSource, parserNew, tokenizeWithContext_eval]
      rfl

/-- **C5** — `tokenize_with_context` pushes exactly one final `Eof` after a
loop that never produces `Eof`, so for every **nonempty** input the token
sequence ends with exactly one `Eof`; but on the **empty** input the final
cursor is `0` and the `Eof` span computation `self.cursor as u32 - 1`
underflows — a panic under debug assertions (the default build), a wrapped
span of `4294967295` in release — modelled as `none`: tokenization does not
terminate normally there, contrary to the claim's "including the empty
sequence". -/
theorem tokenize_eof_last_and_empty_underflow :
    tokenizeWithContext [] = none ∧
    (∀ src : List Char, src ≠ [] → ∃ toks : List Spanned,
      tokenizeWithContext src = some toks ∧
      (toks.map Spanned.value).getLast? = some Token.Eof ∧
      (toks.map Spanned.value).count Token.Eof = 1) := by
  constructor
  · rw [tokenizeWithContext_eval]
    rfl
  · intro src hne
    have hpos := tokenizeLoop_final_pos hne
    refine ⟨(tokenizeLoop src 0).1 ++
      [⟨Token.Eof, (tokenizeLoop src 0).2 - 1, (tokenizeLoop src 0).2 - 1⟩], ?_, ?_, ?_⟩
    · unfold tokenizeWithContext
      have : ¬((tokenizeLoop src 0).2 = 0) := by omega
      simp [this]
    · simp
    · have hno : Token.Eof ∉ ((tokenizeLoop src 0).1).map Spanned.value := by
        rw [tokenizeLoop_as_fuel]
        exact tokenizeLoopF_no_eof _ src 0
      simp [List.count_append, List.count_eq_zero.mpr hno]

/-- Witness for `tokenize_eof_last_and_empty_underflow` at the one-character
input `(`. -/
theorem tokenize_eof_last_witness :
    tokenizeWithContext [] = none ∧
    (∃ toks : List Spanned,
      tokenizeWithContext ['('] = some toks ∧
      (toks.map Spanned.value).getLast? = some Token.Eof ∧
      (toks.map Spanned.value).count Token.Eof = 1) :=
  ⟨tokenize_eof_last_and_empty_underflow.1,
   tokenize_eof_last_and_empty_underflow.2 ['('] (by decide)⟩

/-- **C6** — in `Parser::unary` the two `match_token` calls are joined with
the non-short-circuiting `|`, so both always execute: from any state whose
cursor sits on `!` immediately followed by `-`, the first call consumes the
`!`, the second consumes the `-`, `previous_token()` is then `Minus`, and
the parse yields `Unary(Minus, operand)` — the `!` is silently dropped; end
to end, `Parser::new("!-x").expr()` returns `Unary(Minus, Variable "x")`,
not `Unary(Not, Unary(Minus, Variable "x"))`. -/
theorem unary_bang_minus_both_consumed :
    (∀ (fuel : Nat) (s : PState),
      (tokAt s s.cursor).value = Token.Not →
      (tokAt s (s.cursor + 1)).value = Token.Minus →
      pUnary (fuel + 1) s =
        (match pUnary fuel (advance (advance s)) with
         | (Except.error e, s3) => (Except.error e, s3)
         | (Except.ok right, s3) =>
           (Except.ok (Expr.Unary UnaryOperator.Minus right), s3))) ∧
    ((exprFromSource 100 "!-x").map (fun p => p.1) =
      some (Except.ok (Expr.Unary UnaryOperator.Minus (Expr.Variable "x")))) := by
  constructor
  · intro fuel s h1 h2
    have hm1 : matchToken Token.Not s = (true, advance s) := by
      simp [matchToken, peek, isAtEnd, h1]
    have hcur : (advance s).cursor = s.cursor + 1 := rfl
    have h2' : (tokAt (advance s) ((advance s).cursor)).value = Token.Minus := by
      simp only [advance, tokAt] at h2 ⊢
      exact h2
    have hm2 : matchToken Token.Minus (advance s) = (true, advance (advance s)) := by
      simp [matchToken, peek, isAtEnd, h2']
    have hprev : previousToken (advance (advance s)) = Token.Minus := by
      simp only [previousToken, advance]
      simpa using h2
    simp only [pUnary, hm1, hm2, hprev]
    rfl
  · simp only [exprFromSource, parserNew, tokenizeWithContext_eval]
    rfl

/-- Witness for `unary_bang_minus_both_consumed`: the token stream of `!-x`
instantiates the hypotheses, and the parse result carries `Minus` only. -/
theorem unary_bang_minus_witness :
    pUnary 100 ⟨[⟨Token.Not, 0, 0⟩, ⟨Token.Minus, 1, 1⟩,
        ⟨Token.Identifier, 2, 2⟩, ⟨Token.Eof, 2, 2⟩], ['!', '-', 'x'], 0, []⟩ =
      (match pUnary 99 (advance (advance ⟨[⟨Token.Not, 0, 0⟩, ⟨Token.Minus, 1, 1⟩,
          ⟨Token.Identifier, 2, 2⟩, ⟨Token.Eof, 2, 2⟩], ['!', '-', 'x'], 0, []⟩)) with
       | (Except.error e, s3) => (Except.error e, s3)
       | (Except.ok right, s3) =>
         (Except.ok (Expr.Unary UnaryOperator.Minus right), s3)) :=
  unary_bang_minus_both_consumed.1 99
    ⟨[⟨Token.Not, 0, 0⟩, ⟨Token.Minus, 1, 1⟩,
      ⟨Token.Identifier, 2, 2⟩, ⟨Token.Eof, 2, 2⟩], ['!', '-', 'x'], 0, []⟩
    rfl rfl

/-- **C7** — `Interpreter::logical`: when the left operand evaluates exactly
to `Bool(false)` under `And` (symmetrically `Bool(true)` under `Or`) the
result is that value and the right operand is never evaluated — the result
and environment do not depend on `right` at all, so none of its effects or
errors occur; for any other successfully evaluated left value the result is
exactly the evaluation of `right`, and a failing left operand propagates
its error. -/
theorem logical_short_circuit :
    (∀ (env env1 : Env) (l r : Expr),
      eval env l = (env1, Except.ok (Value.Bool false)) →
      eval env (Expr.Logical l LogicalOperator.And r) =
        (env1, Except.ok (Value.Bool false))) ∧
    (∀ (env env1 : Env) (l r : Expr),
      eval env l = (env1, Except.ok (Value.Bool true)) →
      eval env (Expr.Logical l LogicalOperator.Or r) =
        (env1, Except.ok (Value.Bool true))) ∧
    (∀ (env env1 : Env) (l r : Expr) (v : Value),
      eval env l = (env1, Except.ok v) → v ≠ Value.Bool false →
      eval env (Expr.Logical l LogicalOperator.And r) = eval env1 r) ∧
    (∀ (env env1 : Env) (l r : Expr) (v : Value),
      eval env l = (env1, Except.ok v) → v ≠ Value.Bool true →
      eval env (Expr.Logical l LogicalOperator.Or r) = eval env1 r) ∧
    (∀ (env env1 : Env) (l r : Expr) (op : LogicalOperator) (e : String),
      eval env l = (env1, Except.error e) →
      eval env (Expr.Logical l op r) = (env1, Except.error e)) := by
  refine ⟨?_, ?_, ?_, ?_, ?_⟩
  · intro env env1 l r h
    simp [eval, h, valueEq]
  · intro env env1 l r h
    simp [eval, h, valueEq]
  · intro env env1 l r v h hne
    simp [eval, h, valueEq, hne]
  · intro env env1 l r v h hne
    simp [eval, h, valueEq, hne]
  · intro env env1 l r op e h
    simp [eval, h]

/-- Witness for `logical_short_circuit`: `false and boom` short-circuits to
`Bool false` even though `boom` is an undefined variable, and a `true` left
operand under `And` defers to the right operand. -/
theorem logical_short_circuit_witness :
    eval envNew (Expr.Logical (Expr.Boolean false) LogicalOperator.And
        (Expr.Variable "boom")) = (envNew, Except.ok (Value.Bool false)) ∧
    eval envNew (Expr.Logical (Expr.Boolean true) LogicalOperator.And
        (Expr.Number 7)) = eval envNew (Expr.Number 7) :=
  ⟨logical_short_circuit.1 envNew envNew _ _ rfl,
   logical_short_circuit.2.2.1 envNew envNew _ _ (Value.Bool true) rfl (by decide)⟩

/-- **C8** — `Interpreter::unary` applies `!Value::from(expr)` for **both**
`Not` and `Minus`: the two operators evaluate identically, to boolean
negation — `Bool b` maps to `Bool (!b)` and every non-boolean operand
(numbers included, even under `Minus`) yields the
"oprands must be boolean" type error. -/
theorem unary_not_minus_both_boolean_negation :
    (∀ (env : Env) (op : UnaryOperator) (e : Expr),
      eval env (Expr.Unary op e) =
        (match eval env e with
         | (env1, Except.error er) => (env1, Except.error er)
         | (env1, Except.ok v) => (env1, valueNot v))) ∧
    (∀ (env : Env) (e : Expr),
      eval env (Expr.Unary UnaryOperator.Not e) =
        eval env (Expr.Unary UnaryOperator.Minus e)) ∧
    (∀ b, valueNot (Value.Bool b) = Except.ok (Value.Bool (!b))) ∧
    (∀ q, valueNot (Value.Num q) = Except.error "oprands must be boolean") ∧
    (valueNot Value.Nil = Except.error "oprands must be boolean") ∧
    (∀ s, valueNot (Value.String s) = Except.error "oprands must be boolean") := by
  refine ⟨?_, ?_, fun b => rfl, fun q => rfl, rfl, fun s => rfl⟩
  · intro env op e
    rcases hv : eval env e with ⟨env1, rv⟩
    simp only [eval, hv]
    cases rv <;> cases op <;> rfl
  · intro env e
    rcases hv : eval env e with ⟨env1, rv⟩
    simp only [eval, hv]

/-- **C9** — the statement loop of `Interpreter::interpret` is isolation by
construction: running `l1 ++ l2` always runs every statement of `l2` after
those of `l1`, threading the environment and concatenating the outputs,
whatever errors `l1` produced; concretely, after `"true" + 1` fails with
the `+` type error, the report appears in the output and the following
`print 1;` still executes and prints. -/
theorem runtime_errors_isolated_per_statement :
    (∀ (env : Env) (l1 l2 : List Stmt),
      interpret env (l1 ++ l2) =
        ((interpret (interpret env l1).1 l2).1,
         (interpret env l1).2 ++ (interpret (interpret env l1).1 l2).2)) ∧
    (interpret envNew
        [Stmt.Expr (Expr.Binary (Expr.String "true") BinaryOperator.Plus (Expr.Number 1)),
         Stmt.Print (Expr.Number 1)] =
      (envNew,
       [Output.stmtDebug (Stmt.Expr (Expr.Binary (Expr.String "true")
          BinaryOperator.Plus (Expr.Number 1))),
        Output.runtimeErr "RuntimeErr: both oprands must be number or string type.",
        Output.stmtDebug (Stmt.Print (Expr.Number 1)),
        Output.printed (Value.Num 1)])) :=
  ⟨fun env l1 l2 => interpret_append l1 env l2, rfl⟩

/-- **C10** — `impl Add for Value` yields `Num (a+b)` on two numbers and the
concatenated `String` on two strings, and fails with the
"number or string" type error on each of the other pairings of operand
kinds; `==` dispatches to the derived structural `PartialEq`, never fails
(`binary` wraps it in `Ok` unconditionally), and performs no coercion:
`"a" + "b" = "ab"`, `"a" == "a"` is `true`, `"a" == 1` is `false`. -/
theorem plus_and_equality_semantics :
    (∀ a b : ℚ, valueAdd (Value.Num a) (Value.Num b) =
      Except.ok (Value.Num (a + b))) ∧
    (∀ s t : String, valueAdd (Value.String s) (Value.String t) =
      Except.ok (Value.String (s ++ t))) ∧
    (∀ (b : Bool) (v : Value), valueAdd (Value.Bool b) v =
      Except.error "both oprands must be number or string type.") ∧
    (∀ v : Value, valueAdd Value.Nil v =
      Except.error "both oprands must be number or string type.") ∧
    (∀ (q : ℚ) (b : Bool), valueAdd (Value.Num q) (Value.Bool b) =
      Except.error "both oprands must be number or string type.") ∧
    (∀ q : ℚ, valueAdd (Value.Num q) Value.Nil =
      Except.error "both oprands must be number or string type.") ∧
    (∀ (q : ℚ) (s : String), valueAdd (Value.Num q) (Value.String s) =
      Except.error "both oprands must be number or string type.") ∧
    (∀ (s : String) (b : Bool), valueAdd (Value.String s) (Value.Bool b) =
      Except.error "both oprands must be number or string type.") ∧
    (∀ (s : String) (q : ℚ), valueAdd (Value.String s) (Value.Num q) =
      Except.error "both oprands must be number or string type.") ∧
    (∀ s : String, valueAdd (Value.String s) Value.Nil =
      Except.error "both oprands must be number or string type.") ∧
    (∀ v w : Value, binaryOp BinaryOperator.EqualEqual v w =
      Except.ok (Value.Bool (valueEq v w))) ∧
    (∀ v w : Value, valueEq v w = true ↔ v = w) ∧
    (eval envNew (Expr.Binary (Expr.String "a") BinaryOperator.Plus (Expr.String "b")) =
      (envNew, Except.ok (Value.String "ab"))) ∧
    (eval envNew (Expr.Binary (Expr.String "a") BinaryOperator.EqualEqual
        (Expr.String "a")) = (envNew, Except.ok (Value.Bool true))) ∧
    (eval envNew (Expr.Binary (Expr.String "a") BinaryOperator.EqualEqual
        (Expr.Number 1)) = (envNew, Except.ok (Value.Bool false))) := by
  have h3 : ∀ (b : Bool) (v : Value), valueAdd (Value.Bool b) v =
      Except.error "both oprands must be number or string type." := by
    intro b v; cases v <;> rfl
  have h4 : ∀ v : Value, valueAdd Value.Nil v =
      Except.error "both oprands must be number or string type." := by
    intro v; cases v <;> rfl
  exact ⟨fun a b => rfl, fun s t => rfl, h3, h4, fun q b => rfl, fun q => rfl,
    fun q s => rfl, fun s b => rfl, fun s q => rfl, fun s => rfl,
    fun v w => rfl, valueEq_iff, rfl, rfl, rfl⟩

end Rox
